import Mathlib

/-
Verification of the execution-and-aggregation core of uncertainpy
(`src/uncertainpy/core/run_model.py`): a shallow embedding of the
`RunModel` class — `apply_interpolation`, `results_to_data`,
`evaluate_nodes`, `create_model_parameters` and `is_regular` — together
with theorems about the behaviour these methods exhibit.

Modelling conventions:
- numpy scalars are rationals (`ℚ`); `np.nan` entries inside a time array
  are `Option.none`; the `np.nan` sentinel used as an invalid-value marker
  is an explicit constructor (`PyVal.nanV`, `TimeVal.nanScalar`), matching
  the identity (`is`) checks of the source.
- a scipy interpolation object is a function on time entries, applied
  pointwise to a time array (as `interp1d.__call__` does).
- a Python dict is an association list; lookup returns the first binding,
  assignment overwrites in place, and insertion appends — the invariant of
  the spec (every evaluation result carries the same key set, keys unique)
  is carried as hypotheses of the theorems where it matters.
- raised exceptions become `Except.error` values of an explicit error type
  `RMError`, whose `message` function reproduces the source's format
  strings.
-/

set_option autoImplicit false

/-- A numeric entry of a numpy time array; `none` models an `np.nan` entry. -/
abbrev TEntry := Option ℚ

/-- A 1-D numpy time array. -/
abbrev TimeArr := List TEntry

/-- The `time` entry of a result envelope: either the scalar `np.nan`
invalid marker, or a 1-D array whose entries may individually be nan. -/
inductive TimeVal where
  | nanScalar
  | tArr (entries : TimeArr)
deriving DecidableEq

/-- `np.all(np.isnan(time))` on a time value: true for the nan scalar, and
for an array all of whose entries are nan (vacuously for an empty array,
as `np.all` on an empty array is `True`). -/
def TimeVal.allNan : TimeVal → Bool
  | TimeVal.nanScalar => true
  | TimeVal.tArr es => es.all (fun e => e.isNone)

/-- The underlying array of a time value (the nan scalar has none). -/
def TimeVal.contents : TimeVal → TimeArr
  | TimeVal.nanScalar => []
  | TimeVal.tArr es => es

/-- The `values` entry of a result envelope: the `np.nan` sentinel, `None`,
or a 0-, 1- or 2-dimensional numeric array. -/
inductive PyVal where
  | nanV
  | noneV
  | v0 (x : ℚ)
  | v1 (xs : List ℚ)
  | v2 (xss : List (List ℚ))
deriving DecidableEq

/-- `np.ndim` of a value (`np.ndim` of `np.nan` and of `None` is 0). -/
def PyVal.ndim : PyVal → Nat
  | PyVal.nanV => 0
  | PyVal.noneV => 0
  | PyVal.v0 _ => 0
  | PyVal.v1 _ => 1
  | PyVal.v2 _ => 2

/-- A scipy interpolation object, evaluated pointwise on a time array. -/
abbrev Interp := TEntry → TEntry

/-- One result envelope: the `values`, `time` and optional `interpolation`
entries of a model/feature result dictionary. -/
structure Envelope where
  values : PyVal
  time : TimeVal
  interpolation : Option Interp

/-- One evaluation result: a dictionary from feature name (including the
reserved model name) to its result envelope. -/
abbrev ResultMap := List (String × Envelope)

/-- Dictionary access `result[feature]`; under the spec's uniform-key
invariant the key is always present, so the default is never exercised in
any theorem or concrete input below. -/
def getEnv (r : ResultMap) (f : String) : Envelope :=
  match r.lookup f with
  | some e => e
  | none => ⟨PyVal.nanV, TimeVal.nanScalar, none⟩

/-- Modelled from the spec: the helper `lengths` from
`uncertainpy.utils.utility` is imported by `run_model.py` but its source is
not under `src/`; per the spec, an evaluation's output length is "the size
of the outermost dimension, or 1 for scalars". -/
def lengths : PyVal → Nat
  | PyVal.nanV => 1
  | PyVal.noneV => 1
  | PyVal.v0 _ => 1
  | PyVal.v1 xs => xs.length
  | PyVal.v2 xss => xss.length

/-- First loop of `RunModel.is_regular` (lines 497-502): `i` is incremented
before the validity test, so on break it points just past the first
`values` that is neither the `np.nan` sentinel nor `None`. -/
def firstValidAux : List PyVal → Nat → Nat × Option PyVal
  | [], i => (i, none)
  | v :: vs, i =>
    if v ≠ PyVal.nanV ∧ v ≠ PyVal.noneV then (i + 1, some v)
    else firstValidAux vs (i + 1)

/-- Second loop of `RunModel.is_regular` (lines 504-511), kept faithful to
the source: the guard `values is not np.nan or values is not None` is a
disjunction and hence always true, so no value is skipped here. -/
def regularLoop : PyVal → List PyVal → Bool
  | _, [] => true
  | prev, v :: vs =>
    if v ≠ PyVal.nanV ∨ v ≠ PyVal.noneV then
      if lengths prev ≠ lengths v then false
      else regularLoop v vs
    else regularLoop prev vs

/-- `RunModel.is_regular(results, feature)` (lines 456-513). -/
def is_regular (results : List ResultMap) (feature : String) : Bool :=
  let vals := results.map (fun r => (getEnv r feature).values)
  match firstValidAux vals 0 with
  | (_, none) => true
  | (i, some prev) => regularLoop prev (vals.drop i)

/-- `np.argmax` on a list of naturals: the index of the first occurrence of
the maximum (numpy's documented tie-breaking rule). -/
def np_argmax (l : List Nat) : Nat :=
  l.findIdx (fun x => decide (l.foldr Nat.max 0 ≤ x))

/-- `RunModel.apply_interpolation` (lines 113-155): pick the collected time
array with the most points and evaluate every interpolation object at its
points. -/
def apply_interpolation (time_interpolate : List TimeArr)
    (interpolation : List Interp) : TimeArr × List TimeArr :=
  let time_lengths := time_interpolate.map List.length
  let index_max_len := np_argmax time_lengths
  let time := time_interpolate.getD index_max_len []
  let interpolated_results := interpolation.map (fun inter => time.map inter)
  (time, interpolated_results)

/-- The exceptions `results_to_data` and its helpers can raise. -/
inductive RMError where
  | indexError
  | keyError (key : String)
  | irregular (feature : String)
  | notImplemented (feature : String)
  | noTime (isModel : Bool) (feature : String) (model : String)
deriving DecidableEq

/-- The `ValueError` message of the irregularity check (lines 232-233). -/
def irregularMessage (feature : String) : String :=
  feature ++ ": The number of points varies between evaluations." ++
    " Try setting adaptive to True in " ++ feature

/-- The `NotImplementedError` message (lines 243-244). -/
def notImplementedMessage (feature : String) : String :=
  "Feature: " ++ feature ++ "," ++ " no support for >= 2D interpolation"

/-- The time-base `ValueError` messages (lines 289-293): the model's own
output names only the model; a feature names both itself and the model. -/
def noTimeMessage (isModel : Bool) (feature model : String) : String :=
  if isModel then
    model ++ " has no valid time values to use in the interpolation"
  else
    "Neither " ++ feature ++ " or " ++ model ++
      " has valid time values to use in the interpolation"

/-- The message attached to each raised exception, reproducing the format
strings of the source. -/
def RMError.message : RMError → String
  | RMError.indexError => "list index out of range"
  | RMError.keyError k => k
  | RMError.irregular f => irregularMessage f
  | RMError.notImplemented f => notImplementedMessage f
  | RMError.noTime isModel f m => noTimeMessage isModel f m

/-- One iteration of the time-collection loop of `results_to_data`
(lines 251-293), for a single evaluation of feature `feature`: append the
feature's own time if it is not entirely nan; then — when the feature is
the model, or no time was found yet — append the model's time if it is not
entirely nan; raise the time-base `ValueError` when no time was found. -/
def collectTime (isModel : Bool) (featTime modelTime : TimeVal)
    (feature model : String) : Except RMError (List TimeArr) :=
  let acc1 : List TimeArr :=
    if featTime.allNan then [] else [featTime.contents]
  let exists1 : Bool := !featTime.allNan
  let step2 : List TimeArr × Bool :=
    if isModel || !exists1 then
      if modelTime.allNan then (acc1, exists1)
      else (acc1 ++ [modelTime.contents], true)
    else (acc1, exists1)
  if step2.2 then Except.ok step2.1
  else Except.error (RMError.noTime isModel feature model)

/-- The full collection loop `for result in results:` of the adaptive 1-D
branch of `results_to_data` (lines 251-295): per evaluation, resolve a
usable time base via `collectTime`, then read the evaluation's
`interpolation` object (a missing key raises `KeyError`). -/
def collectAll (modelName feature : String) :
    List ResultMap → Except RMError (List TimeArr × List Interp)
  | [] => Except.ok ([], [])
  | r :: rs =>
    match collectTime (feature == modelName) (getEnv r feature).time
        (getEnv r modelName).time feature modelName with
    | Except.error e => Except.error e
    | Except.ok ts =>
      match (getEnv r feature).interpolation with
      | none => Except.error (RMError.keyError "interpolation")
      | some inter =>
        match collectAll modelName feature rs with
        | Except.error e => Except.error e
        | Except.ok (ts2, is2) => Except.ok (ts ++ ts2, inter :: is2)

/-- The configuration `results_to_data` reads from `self`: the model's
name and flags, and the features' adaptive set and labels mapping. -/
structure RMConfig where
  model_name : String
  model_ignore : Bool
  model_adaptive : Bool
  features_adaptive : List String
  model_labels : List String
  features_labels : List (String × List String)

/-- The guard of the irregularity check (lines 229-230): the model's own
output when the model neither ignores features nor is adaptive, and any
other feature not declared adaptive. -/
def regularityApplies (cfg : RMConfig) (feature : String) : Bool :=
  (feature == cfg.model_name && !(cfg.model_ignore || cfg.model_adaptive)) ||
    (feature != cfg.model_name && !(cfg.features_adaptive.contains feature))

/-- The guard of the interpolation branch (lines 239-240). -/
def adaptiveApplies (cfg : RMConfig) (feature : String) : Bool :=
  cfg.features_adaptive.contains feature ||
    (feature == cfg.model_name && cfg.model_adaptive && !cfg.model_ignore)

/-- The irregularity-check loop of `results_to_data` (lines 228-233). -/
def regularityCheck (cfg : RMConfig) (results : List ResultMap) :
    List String → Except RMError Unit
  | [] => Except.ok ()
  | f :: fs =>
    if regularityApplies cfg f && !is_regular results f then
      Except.error (RMError.irregular f)
    else regularityCheck cfg results fs

/-- Labels attached in the first loop of `results_to_data`
(lines 214-220): the model's own labels for the model-name key, else the
features' labels entry if present. -/
def labelsFor (cfg : RMConfig) (feature : String) : List String :=
  if feature == cfg.model_name then cfg.model_labels
  else
    match cfg.features_labels.lookup feature with
    | some ls => ls
    | none => []

/-- The `time` stored for a feature: a single value, or one per evaluation
(the ignored-model branch). -/
inductive TimeData where
  | one (t : TimeVal)
  | perRun (ts : List TimeVal)
deriving DecidableEq

/-- The `evaluations` stored for a feature: the raw per-evaluation values,
or the stacked interpolated rows. -/
inductive EvalData where
  | raw (vs : List PyVal)
  | interpolated (rows : List TimeArr)
deriving DecidableEq

/-- The per-feature record of the `Data` object, as far as
`results_to_data` fills it. -/
structure FeatureData where
  labels : List String
  time : TimeData
  evaluations : EvalData
deriving DecidableEq

/-- The `Data` object, as far as `results_to_data` fills it. -/
structure DataObj where
  model_name : String
  entries : List (String × FeatureData)
deriving DecidableEq

/-- The warning of the 0-D adaptive branch (lines 302-303). -/
def zeroDWarning (feature : String) : String :=
  feature ++ " " ++ "gives a 0D result. No interpolation performed"

/-- The storage step of `results_to_data` for one feature
(lines 237-326): the adaptive branch dispatches on the dimensionality of
the FIRST evaluation's values (2-D and higher raises
`NotImplementedError`, 1-D interpolates, 0-D stores raw values with a
warning); the ignored model stores raw per-evaluation values and times;
every other feature stores the first evaluation's time and the raw
values. Returns the stored record and the warnings emitted. -/
def storeFeature (cfg : RMConfig) (results : List ResultMap)
    (feature : String) : Except RMError (FeatureData × List String) :=
  let firstEnv := getEnv (results.headD []) feature
  if adaptiveApplies cfg feature then
    if 2 ≤ firstEnv.values.ndim then
      Except.error (RMError.notImplemented feature)
    else if firstEnv.values.ndim == 1 then
      match collectAll cfg.model_name feature results with
      | Except.error e => Except.error e
      | Except.ok (time_interpolate, interpolations) =>
        let p := apply_interpolation time_interpolate interpolations
        Except.ok (⟨labelsFor cfg feature, TimeData.one (TimeVal.tArr p.1),
          EvalData.interpolated p.2⟩, [])
    else
      Except.ok (⟨labelsFor cfg feature, TimeData.one firstEnv.time,
        EvalData.raw (results.map (fun r => (getEnv r feature).values))⟩,
        [zeroDWarning feature])
  else if feature == cfg.model_name && cfg.model_ignore then
    Except.ok (⟨labelsFor cfg feature,
      TimeData.perRun (results.map (fun r => (getEnv r feature).time)),
      EvalData.raw (results.map (fun r => (getEnv r feature).values))⟩, [])
  else
    Except.ok (⟨labelsFor cfg feature, TimeData.one firstEnv.time,
      EvalData.raw (results.map (fun r => (getEnv r feature).values))⟩, [])

/-- The storage loop of `results_to_data` over all features, in the key
order of the first evaluation result. -/
def storeAll (cfg : RMConfig) (results : List ResultMap) :
    List String → Except RMError (List (String × FeatureData) × List String)
  | [] => Except.ok ([], [])
  | f :: fs =>
    match storeFeature cfg results f with
    | Except.error e => Except.error e
    | Except.ok (fd, w) =>
      match storeAll cfg results fs with
      | Except.error e => Except.error e
      | Except.ok (rest, ws) => Except.ok ((f, fd) :: rest, w ++ ws)

/-- `RunModel.results_to_data` (lines 158-337): register the features of
the first evaluation result with their labels, run the irregularity check,
then store every feature (interpolating as needed). Returns the `Data`
object and the warnings emitted; raised exceptions are `Except.error`. -/
def results_to_data (cfg : RMConfig) (results : List ResultMap) :
    Except RMError (DataObj × List String) :=
  match results with
  | [] => Except.error RMError.indexError
  | r0 :: _ =>
    let feats := r0.map Prod.fst
    match regularityCheck cfg results feats with
    | Except.error e => Except.error e
    | Except.ok _ =>
      match storeAll cfg results feats with
      | Except.error e => Except.error e
      | Except.ok (entries, warns) =>
        Except.ok (⟨cfg.model_name, entries⟩, warns)

/-- The `nodes` argument of `evaluate_nodes`/`create_model_parameters`:
a 2-D numpy array of shape (rows, ncols), or a 1-D array. -/
inductive NPNodes where
  | mat (rows : List (List ℚ)) (ncols : Nat)
  | vec (entries : List ℚ)

/-- One element of the iteration over `nodes.T`: for a 2-D array a column
(1-D), for a 1-D array a scalar entry (0-D). -/
inductive NPColumn where
  | arr (xs : List ℚ)
  | scalar (x : ℚ)

/-- Iteration over `nodes.T`: the columns of a 2-D array (entry `i` of
column `j` is row `i`'s entry `j`), the scalar entries of a 1-D array. -/
def npColumns : NPNodes → List NPColumn
  | NPNodes.mat rows ncols =>
    (List.range ncols).map (fun j => NPColumn.arr (rows.map (fun r => r.getD j 0)))
  | NPNodes.vec entries => entries.map NPColumn.scalar

/-- A parameter-set dictionary, insertion ordered. -/
abbrev ParamSet := List (String × ℚ)

/-- Python `key in dict`. -/
def dictContains (d : ParamSet) (k : String) : Bool :=
  d.any (fun p => p.1 == k)

/-- Python `dict[key] = value`: overwrite in place when the key is bound,
append otherwise. -/
def dictInsert (d : ParamSet) (k : String) (v : ℚ) : ParamSet :=
  if dictContains d k then d.map (fun p => if p.1 == k then (k, v) else p)
  else d ++ [(k, v)]

/-- Python `dict[key]` as an option (first binding wins). -/
def dictGet : ParamSet → String → Option ℚ
  | [], _ => none
  | p :: d, k => if p.1 == k then some p.2 else dictGet d k

/-- The inner loop `for j, parameter in enumerate(uncertain_parameters):
parameters[parameter] = node[j]` (lines 444-445); `node[j]` is embedded as
`getD`, total under the contract that the name list's length equals the
node's length. -/
def assignUncertain (node : List ℚ) : ParamSet → Nat → List String → ParamSet
  | d, _, [] => d
  | d, j, name :: rest =>
    assignUncertain node (dictInsert d name (node.getD j 0)) (j + 1) rest

/-- The loop `for parameter in self.parameters:` filling every declared
parameter not already bound with its nominal value (lines 447-449). -/
def fillNominal : ParamSet → List (String × ℚ) → ParamSet
  | d, [] => d
  | d, pv :: rest =>
    fillNominal (if dictContains d pv.1 then d else d ++ [pv]) rest

/-- The body of the `for node in nodes.T:` loop (lines 438-451): a 0-D node
is wrapped into a single-element sequence, the uncertain names are bound to
the node's entries, and the remaining declared parameters to their nominal
values. -/
def buildParamSet (uncertain : List String) (declared : List (String × ℚ))
    (col : NPColumn) : ParamSet :=
  let node : List ℚ :=
    match col with
    | NPColumn.scalar x => [x]
    | NPColumn.arr xs => xs
  fillNominal (assignUncertain node [] 0 uncertain) declared

/-- `RunModel.create_model_parameters` (lines 409-453): one parameter set
per element of `nodes.T`, in order. -/
def create_model_parameters (nodes : NPNodes) (uncertain : List String)
    (declared : List (String × ℚ)) : List ParamSet :=
  (npColumns nodes).map (buildParamSet uncertain declared)

/-- The state of the `Xvfb` virtual display over one `evaluate_nodes`
call: whether `start` ran, and whether `stop` ran. -/
structure DisplayLog where
  started : Bool
  stopped : Bool
deriving DecidableEq

/-- What `evaluate_nodes` can raise: the `ImportError` for a missing
`xvfbwrapper`, or an exception of a worker evaluation. -/
inductive EvalError (ε : Type) where
  | importError (msg : String)
  | workerError (e : ε)
deriving DecidableEq

/-- `pool.imap(self._parallel.run, model_parameters)` (line 394):
`imap` yields the workers' results in the order of the inputs, independent
of completion order, so the dispatch is embedded as an order-preserving
map; the first worker exception aborts the batch and propagates. -/
def imapOrdered {ε ρ : Type} (worker : ParamSet → Except ε ρ) :
    List ParamSet → Except ε (List ρ)
  | [] => Except.ok []
  | p :: ps =>
    match worker p with
    | Except.error e => Except.error e
    | Except.ok r =>
      match imapOrdered worker ps with
      | Except.error e => Except.error e
      | Except.ok rs => Except.ok (r :: rs)

/-- `RunModel.evaluate_nodes` (lines 342-405): when graphics suppression
is requested, fail with `ImportError` if `xvfbwrapper` is unavailable,
else start the virtual display; dispatch every parameter set through the
pool; stop the display only after the collection loop completes — there is
no `try/finally`, so a worker exception propagates with the display still
started. Errors carry the display state at the moment they propagate. -/
def evaluate_nodes {ε ρ : Type} (prerequisites suppress_graphics : Bool)
    (worker : ParamSet → Except ε ρ) (nodes : NPNodes)
    (uncertain : List String) (declared : List (String × ℚ)) :
    Except (EvalError ε × DisplayLog) (List ρ × DisplayLog) :=
  if suppress_graphics && !prerequisites then
    Except.error (EvalError.importError
      "Running with suppress_graphics require: xvfbwrapper", ⟨false, false⟩)
  else
    let started := suppress_graphics
    let model_parameters := create_model_parameters nodes uncertain declared
    match imapOrdered worker model_parameters with
    | Except.error e => Except.error (EvalError.workerError e, ⟨started, false⟩)
    | Except.ok results => Except.ok (results, ⟨started, suppress_graphics⟩)

/-! ## Helper lemmas -/

theorem le_foldrMax {l : List Nat} {x : Nat} (hx : x ∈ l) :
    x ≤ l.foldr Nat.max 0 := by
  induction l with
  | nil => cases hx
  | cons a t ih =>
    simp only [List.foldr_cons]
    rcases List.mem_cons.mp hx with rfl | h
    · exact Nat.le_max_left _ _
    · exact Nat.le_trans (ih h) (Nat.le_max_right _ _)

theorem foldrMax_mem {l : List Nat} (h : l ≠ []) : l.foldr Nat.max 0 ∈ l := by
  induction l with
  | nil => exact absurd rfl h
  | cons a t ih =>
    simp only [List.foldr_cons]
    rcases eq_or_ne t [] with rfl | ht
    · simp
    · rcases Nat.le_total a (t.foldr Nat.max 0) with hle | hle
      · have hmax : a.max (t.foldr Nat.max 0) = t.foldr Nat.max 0 :=
          Nat.max_eq_right hle
        rw [hmax]
        exact List.mem_cons_of_mem _ (ih ht)
      · have hmax : a.max (t.foldr Nat.max 0) = a := Nat.max_eq_left hle
        rw [hmax]
        exact List.mem_cons_self _ _

theorem np_argmax_lt_length {l : List Nat} (h : l ≠ []) :
    np_argmax l < l.length := by
  apply List.findIdx_lt_length_of_exists
  exact ⟨l.foldr Nat.max 0, foldrMax_mem h, by simp⟩

theorem foldrMax_le_np_argmax_get {l : List Nat} (h : l ≠ []) :
    l.foldr Nat.max 0 ≤ l.get ⟨np_argmax l, np_argmax_lt_length h⟩ := by
  have hw : l.findIdx (fun x => decide (l.foldr Nat.max 0 ≤ x)) < l.length :=
    np_argmax_lt_length h
  have h2 := @List.findIdx_getElem _ (fun x => decide (l.foldr Nat.max 0 ≤ x)) l hw
  simp only [decide_eq_true_eq] at h2
  simpa [np_argmax, List.get_eq_getElem] using h2

theorem get_lt_of_lt_np_argmax {l : List Nat} (j : Nat) (hj : j < np_argmax l)
    (hjl : j < l.length) :
    l.get ⟨j, hjl⟩ < l.foldr Nat.max 0 := by
  have h2 := @List.not_of_lt_findIdx _ (fun x => decide (l.foldr Nat.max 0 ≤ x)) l j hj
  simp only [decide_eq_false_iff_not, Nat.not_le, List.get_eq_getElem] at h2 ⊢
  exact h2

theorem apply_interpolation_fst (ts : List TimeArr) (is : List Interp) :
    (apply_interpolation ts is).1 = ts.getD (np_argmax (ts.map List.length)) [] :=
  rfl

theorem apply_interpolation_snd (ts : List TimeArr) (is : List Interp) :
    (apply_interpolation ts is).2 =
      is.map (fun inter => (apply_interpolation ts is).1.map inter) :=
  rfl

/-! ## Claim theorems -/

/-- C3: `apply_interpolation` selects, among all collected time arrays, one
with the greatest number of points as the canonical output time base,
returns it as the feature's time, and evaluates every evaluation's
interpolation object at exactly those points, so every row of the returned
evaluations array has the canonical base's length. -/
theorem apply_interpolation_canonical (ts : List TimeArr) (is : List Interp)
    (hne : ts ≠ []) :
    (apply_interpolation ts is).1 ∈ ts ∧
    (∀ u ∈ ts, u.length ≤ (apply_interpolation ts is).1.length) ∧
    (apply_interpolation ts is).2.length = is.length ∧
    (∀ row ∈ (apply_interpolation ts is).2,
      row.length = (apply_interpolation ts is).1.length) := by
  have hLne : ts.map List.length ≠ [] := by
    simpa [List.map_eq_nil_iff] using hne
  have hidx : np_argmax (ts.map List.length) < ts.length := by
    have := np_argmax_lt_length hLne
    simpa [List.length_map] using this
  have hfst : (apply_interpolation ts is).1 =
      ts.get ⟨np_argmax (ts.map List.length), hidx⟩ := by
    rw [apply_interpolation_fst]
    simp [List.getD_eq_getElem?_getD, List.getElem?_eq_getElem hidx]
  have hlen : (apply_interpolation ts is).1.length =
      (ts.map List.length).get ⟨np_argmax (ts.map List.length),
        np_argmax_lt_length hLne⟩ := by
    rw [hfst]
    simp [List.get_eq_getElem, List.getElem_map]
  refine ⟨?_, ?_, ?_, ?_⟩
  · rw [hfst]; exact List.get_mem ts _ _
  · intro u hu
    have hmem : u.length ∈ ts.map List.length := List.mem_map_of_mem _ hu
    calc u.length ≤ (ts.map List.length).foldr Nat.max 0 := le_foldrMax hmem
      _ ≤ _ := by rw [hlen]; exact foldrMax_le_np_argmax_get hLne
  · rw [apply_interpolation_snd]; exact List.length_map _ _
  · intro row hrow
    rw [apply_interpolation_snd] at hrow
    rcases List.mem_map.mp hrow with ⟨inter, _, rfl⟩
    exact List.length_map _ _

/-- C3 witness: for time-array lengths [5, 8, 3] the canonical base and
every resampled row have length 8. -/
theorem apply_interpolation_canonical_witness :
    (apply_interpolation
        [List.replicate 5 (some 1), List.replicate 8 (some 2),
          List.replicate 3 (some 3)] [fun e => e, fun e => e]).1 ∈
      [List.replicate 5 (some 1), List.replicate 8 (some 2),
        List.replicate 3 (some 3)] ∧
    (∀ u ∈ [List.replicate 5 (some 1), List.replicate 8 (some 2),
        List.replicate 3 (some 3)], u.length ≤
      (apply_interpolation
        [List.replicate 5 (some 1), List.replicate 8 (some 2),
          List.replicate 3 (some 3)] [fun e => e, fun e => e]).1.length) ∧
    (apply_interpolation
        [List.replicate 5 (some 1), List.replicate 8 (some 2),
          List.replicate 3 (some 3)]
        [fun e => e, fun e => e]).2.length = 2 ∧
    (∀ row ∈ (apply_interpolation
        [List.replicate 5 (some 1), List.replicate 8 (some 2),
          List.replicate 3 (some 3)] [fun e => e, fun e => e]).2,
      row.length = (apply_interpolation
        [List.replicate 5 (some 1), List.replicate 8 (some 2),
          List.replicate 3 (some 3)] [fun e => e, fun e => e]).1.length) := by
  simpa using apply_interpolation_canonical
    [List.replicate 5 (some 1), List.replicate 8 (some 2),
      List.replicate 3 (some 3)] [fun e => e, fun e => e] (by decide)

/-- C10: when two or more collected time arrays share the maximal number of
points, `apply_interpolation` deterministically selects the one from the
earliest evaluation (lowest index) as the canonical time base: the returned
time array sits at an index `i` whose length is maximal and such that every
earlier index has strictly smaller length, so the returned array is
uniquely determined by the input order. -/
theorem apply_interpolation_earliest_max (ts : List TimeArr) (is : List Interp)
    (hne : ts ≠ []) :
    ∃ i, i < ts.length ∧ ts[i]? = some (apply_interpolation ts is).1 ∧
      (∀ (j : Nat) (u : TimeArr), ts[j]? = some u →
        u.length ≤ (apply_interpolation ts is).1.length) ∧
      (∀ (j : Nat) (u : TimeArr), j < i → ts[j]? = some u →
        u.length < (apply_interpolation ts is).1.length) := by
  have hLne : ts.map List.length ≠ [] := by
    simpa [List.map_eq_nil_iff] using hne
  have hidx : np_argmax (ts.map List.length) < ts.length := by
    have := np_argmax_lt_length hLne
    simpa [List.length_map] using this
  have hfst : (apply_interpolation ts is).1 =
      ts.get ⟨np_argmax (ts.map List.length), hidx⟩ := by
    rw [apply_interpolation_fst]
    simp [List.getD_eq_getElem?_getD, List.getElem?_eq_getElem hidx]
  have hlen : (apply_interpolation ts is).1.length =
      (ts.map List.length).get ⟨np_argmax (ts.map List.length),
        np_argmax_lt_length hLne⟩ := by
    rw [hfst]
    simp [List.get_eq_getElem, List.getElem_map]
  refine ⟨np_argmax (ts.map List.length), hidx, ?_, ?_, ?_⟩
  · rw [hfst]
    simp [List.getElem?_eq_getElem hidx, List.get_eq_getElem]
  · intro j u hu
    rcases List.getElem?_eq_some.mp hu with ⟨hjl, he⟩
    have hmem : u ∈ ts := he ▸ List.getElem_mem hjl
    have : u.length ∈ ts.map List.length := List.mem_map_of_mem _ hmem
    calc u.length ≤ (ts.map List.length).foldr Nat.max 0 := le_foldrMax this
      _ ≤ _ := by rw [hlen]; exact foldrMax_le_np_argmax_get hLne
  · intro j u hj hu
    have hjl : j < ts.length := by
      rcases List.getElem?_eq_some.mp hu with ⟨h, _⟩
      exact h
    have hju : u = ts.get ⟨j, hjl⟩ := by
      rcases List.getElem?_eq_some.mp hu with ⟨h, he⟩
      simp [List.get_eq_getElem, he]
    have hjL : j < np_argmax (ts.map List.length) := hj
    have hjlL : j < (ts.map List.length).length := by
      simpa [List.length_map] using hjl
    have hlt := get_lt_of_lt_np_argmax j hjL hjlL
    have hgetj : (ts.map List.length).get ⟨j, hjlL⟩ =
        (ts.get ⟨j, hjl⟩).length := by
      simp [List.get_eq_getElem, List.getElem_map]
    calc u.length = (ts.map List.length).get ⟨j, hjlL⟩ := by rw [hju, hgetj]
      _ < (ts.map List.length).foldr Nat.max 0 := hlt
      _ ≤ _ := by rw [hlen]; exact foldrMax_le_np_argmax_get hLne

/-- C10 witness: for time-array lengths [3, 5, 5] the tie at the maximum is
broken toward the earlier evaluation, index 1. -/
theorem apply_interpolation_earliest_max_witness :
    ∃ i, i < 3 ∧
      [List.replicate 3 (some 1), List.replicate 5 (some 2),
        List.replicate 5 (some 3)][i]? =
        some (apply_interpolation
          [List.replicate 3 (some 1), List.replicate 5 (some 2),
            List.replicate 5 (some 3)] [fun e => e]).1 ∧
      (∀ (j : Nat) (u : TimeArr), [List.replicate 3 (some 1), List.replicate 5 (some 2),
          List.replicate 5 (some 3)][j]? = some u →
        u.length ≤ (apply_interpolation
          [List.replicate 3 (some 1), List.replicate 5 (some 2),
            List.replicate 5 (some 3)] [fun e => e]).1.length) ∧
      (∀ (j : Nat) (u : TimeArr), j < i →
        [List.replicate 3 (some 1), List.replicate 5 (some 2),
          List.replicate 5 (some 3)][j]? = some u →
        u.length < (apply_interpolation
          [List.replicate 3 (some 1), List.replicate 5 (some 2),
            List.replicate 5 (some 3)] [fun e => e]).1.length) := by
  exact apply_interpolation_earliest_max
    [List.replicate 3 (some 1), List.replicate 5 (some 2),
      List.replicate 5 (some 3)] [fun e => e] (by decide)

theorem except_isOk_exists {ε ρ : Type} (x : Except ε ρ) (h : x.isOk = true) :
    ∃ r, x = Except.ok r := by
  cases x with
  | error e => simp [Except.isOk, Except.toBool] at h
  | ok r => exact ⟨r, rfl⟩

theorem imapOrdered_ok_of_forall {ε ρ : Type} (worker : ParamSet → Except ε ρ)
    (hok : ∀ p, (worker p).isOk = true) (ps : List ParamSet) :
    ∃ rs, imapOrdered worker ps = Except.ok rs ∧ rs.length = ps.length ∧
      ∀ (i : Nat) (p : ParamSet), ps[i]? = some p →
        ∃ r, rs[i]? = some r ∧ worker p = Except.ok r := by
  induction ps with
  | nil => exact ⟨[], rfl, rfl, by intro i p hp; simp at hp⟩
  | cons p ps ih =>
    obtain ⟨r, hr⟩ := except_isOk_exists _ (hok p)
    obtain ⟨rs, h1, h2, h3⟩ := ih
    refine ⟨r :: rs, ?_, by simp [h2], ?_⟩
    · simp [imapOrdered, hr, h1]
    · intro i q hq
      cases i with
      | zero =>
        simp at hq
        exact ⟨r, by simp, hq ▸ hr⟩
      | succ i =>
        simp only [List.getElem?_cons_succ] at hq ⊢
        exact h3 i q hq

/-- C1: for every node matrix of shape (k, n), the results list returned by
`evaluate_nodes` (and consumed by `run`) has length n and is
order-preserving: the i-th element is the evaluation result for the i-th
column of the node matrix. The parallel dispatch `pool.imap` yields results
in input order regardless of worker completion order (that is `imap`'s
semantics), embedded here as the order-preserving `imapOrdered`. -/
theorem evaluate_nodes_order_preserving {ε ρ : Type} (prereq suppress : Bool)
    (worker : ParamSet → Except ε ρ) (rows : List (List ℚ)) (n : Nat)
    (uncertain : List String) (declared : List (String × ℚ))
    (hwf : ∀ r ∈ rows, r.length = n)
    (hdisp : suppress = true → prereq = true)
    (hok : ∀ p, (worker p).isOk = true) :
    ∃ rs log, evaluate_nodes prereq suppress worker (NPNodes.mat rows n)
        uncertain declared = Except.ok (rs, log) ∧
      rs.length = n ∧
      ∀ i : Nat, i < n → ∃ r, rs[i]? = some r ∧
        worker (buildParamSet uncertain declared
          (NPColumn.arr (rows.map (fun row => row.getD i 0)))) = Except.ok r := by
  have hcond : (suppress && !prereq) = false := by
    cases suppress with
    | false => rfl
    | true => rw [hdisp rfl]; rfl
  obtain ⟨rs, h1, h2, h3⟩ := imapOrdered_ok_of_forall worker hok
    (create_model_parameters (NPNodes.mat rows n) uncertain declared)
  refine ⟨rs, ⟨suppress, suppress⟩, ?_, ?_, ?_⟩
  · simp [evaluate_nodes, hcond, h1]
  · rw [h2]
    simp [create_model_parameters, npColumns]
  · intro i hi
    have hps : (create_model_parameters (NPNodes.mat rows n) uncertain
        declared)[i]? = some (buildParamSet uncertain declared
          (NPColumn.arr (rows.map (fun row => row.getD i 0)))) := by
      simp [create_model_parameters, npColumns, List.getElem?_map,
        List.getElem?_range, hi]
    exact h3 i _ hps

/-- C1 witness: a 2×2 node matrix dispatched through a worker that returns
its parameter set; the results list has length 2 and its i-th element is
the evaluation of the i-th column. -/
theorem evaluate_nodes_order_preserving_witness :
    ∃ rs log, evaluate_nodes (ε := Unit) true false (fun p => Except.ok p)
        (NPNodes.mat [[1, 2], [3, 4]] 2) ["a", "b"] [("c", 5)] =
        Except.ok (rs, log) ∧
      rs.length = 2 ∧
      ∀ i : Nat, i < 2 → ∃ r, rs[i]? = some r ∧
        (fun (p : ParamSet) => Except.ok (ε := Unit) p)
          (buildParamSet ["a", "b"] [("c", 5)]
            (NPColumn.arr ([[1, 2], [3, 4]].map (fun row => row.getD i 0)))) =
          Except.ok r := by
  exact evaluate_nodes_order_preserving true false (fun p => Except.ok p)
    [[1, 2], [3, 4]] 2 ["a", "b"] [("c", 5)] (by decide)
    (fun h => by cases h) (fun _ => rfl)

/-- C2 (code bug): the claim — and the source's own comment and first
loop — require invalid `np.nan` values to be skipped, but the comparison
loop's guard `values is not np.nan or values is not None` is a disjunction
and always true, so the nan marker is length-compared. At the failing
input (one valid evaluation of length 2, then the invalid marker) the
claim requires `true` (at most one valid evaluation); the code returns
`false`. -/
theorem is_regular_invalid_not_skipped :
    is_regular [[("f", ⟨PyVal.v1 [1, 2], TimeVal.nanScalar, none⟩)],
      [("f", ⟨PyVal.nanV, TimeVal.nanScalar, none⟩)]] "f" = false := rfl

/-- C4: in the per-evaluation time resolution of the adaptive 1-D merge of
`results_to_data` (embedded as `collectTime`, used by `collectAll` inside
`storeFeature`): when a feature's own time is entirely the invalid marker
and the model's time is not, the model's time is used as the fallback base;
when the feature's own time is usable no fallback occurs; and for the
model's own output (whose feature time IS the model time) an entirely
invalid time admits no fallback and raises the time-base error whose
message names the model. -/
theorem collectTime_model_fallback (t u : TimeVal) (f m : String) :
    (t.allNan = true → u.allNan = false →
      collectTime false t u f m = Except.ok [u.contents]) ∧
    (t.allNan = false → collectTime false t u f m = Except.ok [t.contents]) ∧
    (t.allNan = true →
      collectTime true t t f m = Except.error (RMError.noTime true f m) ∧
      (RMError.noTime true f m).message =
        m ++ " has no valid time values to use in the interpolation") := by
  refine ⟨?_, ?_, ?_⟩
  · intro h1 h2
    simp [collectTime, h1, h2]
  · intro h1
    simp [collectTime, h1]
  · intro h1
    exact ⟨by simp [collectTime, h1], by simp [RMError.message, noTimeMessage]⟩

/-- C4 witness: a feature time of all-nan entries falls back to the model's
valid time; the model's own all-nan time raises the time-base error. -/
theorem collectTime_model_fallback_witness :
    collectTime false (TimeVal.tArr [none]) (TimeVal.tArr [some 1]) "f" "m" =
      Except.ok [[some 1]] ∧
    collectTime true TimeVal.nanScalar TimeVal.nanScalar "m" "m" =
      Except.error (RMError.noTime true "m" "m") := by
  refine ⟨(collectTime_model_fallback (TimeVal.tArr [none])
    (TimeVal.tArr [some 1]) "f" "m").1 (by decide) (by decide), ?_⟩
  exact ((collectTime_model_fallback TimeVal.nanScalar TimeVal.nanScalar
    "m" "m").2.2 (by decide)).1

/-- C6 (counterexample): with graphics suppression requested,
`xvfbwrapper` available, and a worker evaluation raising, `evaluate_nodes`
propagates the error with the virtual display started but never stopped —
the source has no `try/finally` around the dispatch (`vdisplay.stop()` is
only reached on the success path) — refuting the claim that the display is
released unconditionally after the run, including on a worker error. -/
theorem evaluate_nodes_display_leaked :
    evaluate_nodes (ε := Unit) (ρ := Unit) true true (fun _ => Except.error ())
      (NPNodes.vec [1]) ["a"] [] =
      Except.error (EvalError.workerError (), ⟨true, false⟩) := rfl

/-- C6 (amended): whenever the model requests graphics suppression,
`evaluate_nodes` fails with the `ImportError` configuration error before
dispatching when `xvfbwrapper` is unavailable; otherwise it acquires the
virtual display before dispatching and releases it after a successful run —
but when a worker evaluation raises, the error propagates with the display
still acquired (not released). -/
theorem evaluate_nodes_display_scope {ε ρ : Type}
    (worker : ParamSet → Except ε ρ) (nodes : NPNodes)
    (uncertain : List String) (declared : List (String × ℚ)) :
    (evaluate_nodes false true worker nodes uncertain declared =
      Except.error (EvalError.importError
        "Running with suppress_graphics require: xvfbwrapper",
        ⟨false, false⟩)) ∧
    (∀ rs, imapOrdered worker (create_model_parameters nodes uncertain
        declared) = Except.ok rs →
      evaluate_nodes true true worker nodes uncertain declared =
        Except.ok (rs, ⟨true, true⟩)) ∧
    (∀ e, imapOrdered worker (create_model_parameters nodes uncertain
        declared) = Except.error e →
      evaluate_nodes true true worker nodes uncertain declared =
        Except.error (EvalError.workerError e, ⟨true, false⟩)) := by
  refine ⟨rfl, ?_, ?_⟩ <;> intro x hx <;> simp [evaluate_nodes, hx]

/-- C6 witness: on a successful run with suppression requested the display
is acquired and released. -/
theorem evaluate_nodes_display_scope_witness :
    evaluate_nodes (ε := Unit) true true (fun p => Except.ok p)
      (NPNodes.vec [1]) ["a"] [] =
      Except.ok ([[("a", 1)]], ⟨true, true⟩) := by
  exact (evaluate_nodes_display_scope (fun p => Except.ok (ε := Unit) p)
    (NPNodes.vec [1]) ["a"] []).2.1 [[("a", 1)]] (by rfl)

theorem dictContains_append (d e : ParamSet) (k : String) :
    dictContains (d ++ e) k = (dictContains d k || dictContains e k) := by
  simp [dictContains, List.any_append]

theorem dictGet_eq_none_of_not_contains (d : ParamSet) (k : String)
    (h : dictContains d k = false) : dictGet d k = none := by
  induction d with
  | nil => rfl
  | cons p d ih =>
    simp only [dictContains, List.any_cons, Bool.or_eq_false_iff] at h
    rw [dictGet, if_neg (by simp [h.1]), ih (by simp [dictContains, h.2])]

theorem dictContains_eq_false_of_get_none (d : ParamSet) (k : String)
    (h : dictGet d k = none) : dictContains d k = false := by
  induction d with
  | nil => rfl
  | cons p d ih =>
    rw [dictGet] at h
    by_cases hp : (p.1 == k) = true
    · rw [if_pos hp] at h; cases h
    · rw [if_neg hp] at h
      simp only [dictContains, List.any_cons, Bool.or_eq_false_iff]
      exact ⟨by simpa using hp, by simpa [dictContains] using ih h⟩

theorem dictContains_of_get_some (d : ParamSet) (k : String) (v : ℚ)
    (h : dictGet d k = some v) : dictContains d k = true := by
  by_contra hc
  rw [dictGet_eq_none_of_not_contains d k (by simpa using hc)] at h
  cases h

theorem dictGet_append_of_contains (d e : ParamSet) (k : String)
    (h : dictContains d k = true) : dictGet (d ++ e) k = dictGet d k := by
  induction d with
  | nil => simp [dictContains] at h
  | cons p d ih =>
    by_cases hp : (p.1 == k) = true
    · simp [dictGet, hp]
    · simp only [dictContains, List.any_cons, Bool.or_eq_true] at h
      rcases h with h | h
      · exact absurd h hp
      · rw [List.cons_append, dictGet, if_neg hp, dictGet, if_neg hp]
        exact ih (by simpa [dictContains] using h)

theorem dictGet_append_of_not_contains (d e : ParamSet) (k : String)
    (h : dictContains d k = false) : dictGet (d ++ e) k = dictGet e k := by
  induction d with
  | nil => rfl
  | cons p d ih =>
    simp only [dictContains, List.any_cons, Bool.or_eq_false_iff] at h
    rw [List.cons_append, dictGet, if_neg (by simp [h.1])]
    exact ih (by simp [dictContains, h.2])

theorem dictGet_map_overwrite_ne (d : ParamSet) (x k : String) (v : ℚ)
    (h : (x == k) = false) :
    dictGet (d.map (fun p => if (p.1 == x) = true then (x, v) else p)) k =
      dictGet d k := by
  induction d with
  | nil => rfl
  | cons p d ih =>
    rw [List.map_cons]
    by_cases hp : (p.1 == x) = true
    · have hpx : p.1 = x := by simpa using hp
      rw [if_pos hp]
      rw [dictGet, if_neg (by simp_all), dictGet, if_neg (by simp_all)]
      exact ih
    · rw [if_neg hp, dictGet, dictGet]
      by_cases hpk : (p.1 == k) = true
      · rw [if_pos hpk, if_pos hpk]
      · rw [if_neg hpk, if_neg hpk]
        exact ih

theorem dictGet_insert_ne (d : ParamSet) (x k : String) (v : ℚ)
    (h : (x == k) = false) :
    dictGet (dictInsert d x v) k = dictGet d k := by
  unfold dictInsert
  split
  · exact dictGet_map_overwrite_ne d x k v h
  · by_cases hc : dictContains d k = true
    · exact dictGet_append_of_contains d _ k hc
    · have hc' : dictContains d k = false := by simpa using hc
      rw [dictGet_append_of_not_contains d _ k hc',
        dictGet_eq_none_of_not_contains d k hc']
      simp [dictGet, h]

theorem assignUncertain_get_of_notmem (node : List ℚ) (k : String) :
    ∀ (names : List String) (d : ParamSet) (j : Nat), k ∉ names →
      dictGet (assignUncertain node d j names) k = dictGet d k := by
  intro names
  induction names with
  | nil => intro d j _; rfl
  | cons nm rest ih =>
    intro d j hk
    have h1 : k ∉ rest := fun hm => hk (List.mem_cons_of_mem _ hm)
    have h2 : (nm == k) = false := by
      have hne : nm ≠ k := fun he => hk (he ▸ List.mem_cons_self _ _)
      simpa using hne
    rw [assignUncertain, ih _ _ h1, dictGet_insert_ne _ _ _ _ h2]

theorem assignUncertain_get (node : List ℚ) :
    ∀ (names : List String) (d : ParamSet) (j : Nat), names.Nodup →
      (∀ nm ∈ names, dictContains d nm = false) →
      ∀ (i : Nat) (hi : i < names.length),
        dictGet (assignUncertain node d j names) (names.get ⟨i, hi⟩) =
          some (node.getD (j + i) 0) := by
  intro names
  induction names with
  | nil => intro d j _ _ i hi; exact absurd hi (by simp)
  | cons nm rest ih =>
    intro d j hnd hfresh i hi
    have hdnm : dictContains d nm = false := hfresh nm (List.mem_cons_self _ _)
    have hins : dictInsert d nm (node.getD j 0) = d ++ [(nm, node.getD j 0)] := by
      unfold dictInsert
      rw [if_neg (by simp [hdnm])]
    obtain ⟨hnmrest, hndr⟩ := List.nodup_cons.mp hnd
    cases i with
    | zero =>
      rw [assignUncertain, hins]
      have hget : (nm :: rest).get ⟨0, hi⟩ = nm := rfl
      rw [hget, assignUncertain_get_of_notmem _ _ _ _ _ hnmrest,
        dictGet_append_of_not_contains _ _ _ hdnm]
      simp [dictGet]
    | succ i =>
      rw [assignUncertain, hins]
      have hfr : ∀ x ∈ rest,
          dictContains (d ++ [(nm, node.getD j 0)]) x = false := by
        intro x hx
        rw [dictContains_append]
        have ha : dictContains d x = false := hfresh x (List.mem_cons_of_mem _ hx)
        have hb : (nm == x) = false := by
          have hne : nm ≠ x := fun he => hnmrest (he ▸ hx)
          simpa using hne
        rw [ha]
        simp [dictContains, hb]
      have hi' : i < rest.length := by simpa using hi
      have hrec := ih (d ++ [(nm, node.getD j 0)]) (j + 1) hndr hfr i hi'
      have harith : j + 1 + i = j + (i + 1) := by omega
      rw [harith] at hrec
      simpa using hrec

theorem fillNominal_get_of_contains :
    ∀ (decl : List (String × ℚ)) (d : ParamSet) (k : String),
      dictContains d k = true →
      dictGet (fillNominal d decl) k = dictGet d k := by
  intro decl
  induction decl with
  | nil => intro d k _; rfl
  | cons q rest ih =>
    intro d k hk
    rw [fillNominal]
    by_cases hq : dictContains d q.1 = true
    · rw [if_pos hq]
      exact ih d k hk
    · rw [if_neg hq]
      have hk' : dictContains (d ++ [q]) k = true := by
        rw [dictContains_append, hk]; rfl
      rw [ih _ k hk', dictGet_append_of_contains _ _ _ hk]

theorem fillNominal_nominal :
    ∀ (decl : List (String × ℚ)), (decl.map Prod.fst).Nodup →
      ∀ (d : ParamSet) (pv : String × ℚ), pv ∈ decl →
        dictContains d pv.1 = false →
        dictGet (fillNominal d decl) pv.1 = some pv.2 := by
  intro decl
  induction decl with
  | nil => intro _ d pv hm; cases hm
  | cons q rest ih =>
    intro hnd d pv hm hc
    rw [List.map_cons] at hnd
    obtain ⟨hq1, hndr⟩ := List.nodup_cons.mp hnd
    rw [fillNominal]
    rcases List.mem_cons.mp hm with rfl | hm'
    · rw [if_neg (by simp [hc])]
      have hd' : dictContains (d ++ [pv]) pv.1 = true := by
        rw [dictContains_append]
        simp [dictContains]
      rw [fillNominal_get_of_contains rest _ _ hd',
        dictGet_append_of_not_contains _ _ _ hc]
      simp [dictGet]
    · by_cases hq : dictContains d q.1 = true
      · rw [if_pos hq]
        exact ih hndr d pv hm' hc
      · rw [if_neg hq]
        have hne : (q.1 == pv.1) = false := by
          have h2 : pv.1 ∈ rest.map Prod.fst := List.mem_map_of_mem _ hm'
          have hne' : q.1 ≠ pv.1 := fun he => hq1 (he ▸ h2)
          simpa using hne'
        have hc' : dictContains (d ++ [q]) pv.1 = false := by
          rw [dictContains_append, hc]
          simp [dictContains, hne]
        exact ih hndr (d ++ [q]) pv hm' hc'

/-- C8: for every node matrix of shape (k, n) and ordered uncertain-name
list of length k, `create_model_parameters` produces exactly one parameter
set per column, in column order, in which each uncertain name maps to that
column's sampled value and every other declared parameter maps to its
nominal value (uncertain names always override; a 0-D column — arising for
1-D node arrays — is wrapped into a single-element sequence by
`buildParamSet`). -/
theorem create_model_parameters_binds (rows : List (List ℚ)) (n : Nat)
    (uncertain : List String) (declared : List (String × ℚ))
    (hk : uncertain.length = rows.length)
    (hwf : ∀ r ∈ rows, r.length = n)
    (hnd : uncertain.Nodup)
    (hdd : (declared.map Prod.fst).Nodup) :
    (create_model_parameters (NPNodes.mat rows n) uncertain
        declared).length = n ∧
    ∀ j : Nat, j < n →
      ∃ ps, (create_model_parameters (NPNodes.mat rows n) uncertain
          declared)[j]? = some ps ∧
        (∀ (i : Nat) (hi : i < uncertain.length),
          dictGet ps (uncertain.get ⟨i, hi⟩) =
            some ((rows.getD i []).getD j 0)) ∧
        (∀ pv ∈ declared, pv.1 ∉ uncertain → dictGet ps pv.1 = some pv.2) := by
  constructor
  · simp [create_model_parameters, npColumns]
  · intro j hj
    refine ⟨buildParamSet uncertain declared
      (NPColumn.arr (rows.map (fun r => r.getD j 0))), ?_, ?_, ?_⟩
    · simp [create_model_parameters, npColumns, List.getElem?_map,
        List.getElem?_range, hj]
    · intro i hi
      show dictGet (fillNominal (assignUncertain (rows.map (fun r => r.getD j 0))
        [] 0 uncertain) declared) (uncertain.get ⟨i, hi⟩) = _
      have hga := assignUncertain_get (rows.map (fun r => r.getD j 0)) uncertain
        [] 0 hnd (by intro nm _; rfl) i hi
      have hcont := dictContains_of_get_some _ _ _ hga
      rw [fillNominal_get_of_contains declared _ _ hcont, hga]
      have hi' : i < rows.length := hk ▸ hi
      have hi'' : i < (rows.map (fun r => r.getD j 0)).length := by
        simpa using hi'
      congr 1
      rw [Nat.zero_add]
      rw [List.getD_eq_getElem (List.map (fun r => r.getD j 0) rows) 0 hi'',
        List.getD_eq_getElem rows [] hi']
      simp [List.getElem_map]
    · intro pv hpv hnm
      show dictGet (fillNominal (assignUncertain (rows.map (fun r => r.getD j 0))
        [] 0 uncertain) declared) pv.1 = _
      have hnone : dictGet (assignUncertain (rows.map (fun r => r.getD j 0))
          [] 0 uncertain) pv.1 = none := by
        rw [assignUncertain_get_of_notmem _ _ uncertain [] 0 hnm]; rfl
      exact fillNominal_nominal declared hdd _ pv hpv
        (dictContains_eq_false_of_get_none _ _ hnone)

/-- C8 witness: the spec's round trip — a 2×2 node matrix of ones with
names a, b and declared parameters a:0, b:0, c:5 binds a and b to 1 and
keeps c at 5 in every column's parameter set. -/
theorem create_model_parameters_binds_witness :
    (create_model_parameters (NPNodes.mat [[1, 1], [1, 1]] 2) ["a", "b"]
        [("a", 0), ("b", 0), ("c", 5)]).length = 2 ∧
    ∀ j : Nat, j < 2 →
      ∃ ps, (create_model_parameters (NPNodes.mat [[1, 1], [1, 1]] 2)
          ["a", "b"] [("a", 0), ("b", 0), ("c", 5)])[j]? = some ps ∧
        (∀ (i : Nat) (hi : i < (["a", "b"] : List String).length),
          dictGet ps ((["a", "b"] : List String).get ⟨i, hi⟩) =
            some (([[1, 1], [1, 1]].getD i []).getD j 0)) ∧
        (∀ pv ∈ [("a", 0), ("b", 0), ("c", 5)], pv.1 ∉ (["a", "b"] : List String) →
          dictGet ps pv.1 = some pv.2) := by
  exact create_model_parameters_binds [[1, 1], [1, 1]] 2 ["a", "b"]
    [("a", 0), ("b", 0), ("c", 5)] (by decide) (by decide) (by decide) (by decide)

theorem collectTime_cases (b : Bool) (t u : TimeVal) (f m : String) :
    (∃ ts, collectTime b t u f m = Except.ok ts) ∨
      collectTime b t u f m = Except.error (RMError.noTime b f m) := by
  cases ht : t.allNan <;> cases hu : u.allNan <;> cases b <;>
    simp [collectTime, ht, hu]

theorem collectTime_error_noTime (b : Bool) (t u : TimeVal) (f m : String)
    (e : RMError) (h : collectTime b t u f m = Except.error e) :
    e = RMError.noTime b f m := by
  rcases collectTime_cases b t u f m with ⟨ts, hts⟩ | hts
  · rw [hts] at h
    cases h
  · rw [hts] at h
    injection h with h1
    exact h1.symm

theorem collectAll_error_shape (mn f : String) :
    ∀ (rs : List ResultMap) (e : RMError),
      collectAll mn f rs = Except.error e →
      (∃ k, e = RMError.keyError k) ∨
      (∃ (b : Bool) (g m2 : String), e = RMError.noTime b g m2) := by
  intro rs
  induction rs with
  | nil => intro e h; cases h
  | cons r rs ih =>
    intro e h
    rw [collectAll] at h
    cases hct : collectTime (f == mn) (getEnv r f).time (getEnv r mn).time f mn with
    | error e2 =>
      rw [hct] at h
      simp at h
      right
      exact ⟨f == mn, f, mn, h ▸ collectTime_error_noTime _ _ _ _ _ _ hct⟩
    | ok ts =>
      rw [hct] at h
      cases hi : (getEnv r f).interpolation with
      | none =>
        rw [hi] at h
        simp at h
        left
        exact ⟨"interpolation", h.symm⟩
      | some inter =>
        rw [hi] at h
        cases hca : collectAll mn f rs with
        | error e3 =>
          rw [hca] at h
          simp at h
          exact h ▸ ih e3 hca
        | ok p =>
          obtain ⟨ts2, is2⟩ := p
          rw [hca] at h
          simp at h

theorem storeFeature_not_irregular (cfg : RMConfig) (results : List ResultMap)
    (f g : String) (e : RMError)
    (h : storeFeature cfg results f = Except.error e) :
    e ≠ RMError.irregular g := by
  intro he
  subst he
  simp only [storeFeature] at h
  by_cases h1 : adaptiveApplies cfg f = true
  · rw [if_pos h1] at h
    by_cases h2 : 2 ≤ (getEnv (results.headD []) f).values.ndim
    · rw [if_pos h2] at h
      simp at h
    · rw [if_neg h2] at h
      by_cases h3 : ((getEnv (results.headD []) f).values.ndim == 1) = true
      · rw [if_pos h3] at h
        cases hca : collectAll cfg.model_name f results with
        | error e2 =>
          rw [hca] at h
          simp at h
          rcases collectAll_error_shape _ _ _ _ hca with ⟨k, hk⟩ | ⟨b, g2, m2, hn⟩
          · rw [h] at hk; cases hk
          · rw [h] at hn; cases hn
        | ok p =>
          obtain ⟨ti, ins⟩ := p
          rw [hca] at h
          simp at h
      · rw [if_neg h3] at h
        simp at h
  · rw [if_neg h1] at h
    by_cases h4 : (f == cfg.model_name && cfg.model_ignore) = true
    · rw [if_pos h4] at h
      simp at h
    · rw [if_neg h4] at h
      simp at h

theorem storeAll_not_irregular (cfg : RMConfig) (results : List ResultMap) :
    ∀ (fs : List String) (g : String),
      storeAll cfg results fs ≠ Except.error (RMError.irregular g) := by
  intro fs
  induction fs with
  | nil => intro g h; cases h
  | cons f fs ih =>
    intro g h
    rw [storeAll] at h
    cases hsf : storeFeature cfg results f with
    | error e =>
      rw [hsf] at h
      simp at h
      exact storeFeature_not_irregular cfg results f g e hsf h
    | ok p =>
      obtain ⟨fd, w⟩ := p
      rw [hsf] at h
      cases hsa : storeAll cfg results fs with
      | error e2 =>
        rw [hsa] at h
        simp at h
        exact ih g (h ▸ hsa)
      | ok q =>
        obtain ⟨entries, ws⟩ := q
        rw [hsa] at h
        simp at h

theorem storeAll_ok_lookup (cfg : RMConfig) (results : List ResultMap) :
    ∀ (fs : List String) (entries : List (String × FeatureData))
      (ws : List String),
      storeAll cfg results fs = Except.ok (entries, ws) →
      ∀ f ∈ fs, ∃ fd w, storeFeature cfg results f = Except.ok (fd, w) ∧
        entries.lookup f = some fd ∧ ∀ x ∈ w, x ∈ ws := by
  intro fs
  induction fs with
  | nil => intro entries ws _ f hf; cases hf
  | cons f0 fs ih =>
    intro entries ws h f hf
    rw [storeAll] at h
    cases hsf : storeFeature cfg results f0 with
    | error e =>
      rw [hsf] at h
      simp at h
    | ok p =>
      obtain ⟨fd0, w0⟩ := p
      rw [hsf] at h
      cases hsa : storeAll cfg results fs with
      | error e =>
        rw [hsa] at h
        simp at h
      | ok q =>
        obtain ⟨entries', ws'⟩ := q
        rw [hsa] at h
        simp only [Except.ok.injEq, Prod.mk.injEq] at h
        obtain ⟨he, hw⟩ := h
        subst he
        subst hw
        by_cases hff : f = f0
        · subst hff
          refine ⟨fd0, w0, hsf, ?_, ?_⟩
          · simp [List.lookup]
          · intro x hx
            exact List.mem_append_left _ hx
        · rcases List.mem_cons.mp hf with rfl | hm
          · exact absurd rfl hff
          · obtain ⟨fd, w, hsf2, hlk, hws⟩ := ih entries' ws' hsa f hm
            refine ⟨fd, w, hsf2, ?_, ?_⟩
            · have hbe : (f == f0) = false := by simpa using hff
              simp [List.lookup, hbe, hlk]
            · intro x hx
              exact List.mem_append_right _ (hws x hx)

theorem regularityCheck_error_of_exists (cfg : RMConfig)
    (results : List ResultMap) :
    ∀ fs : List String,
      (∃ f ∈ fs, regularityApplies cfg f = true ∧
        is_regular results f = false) →
      ∃ g, regularityApplies cfg g = true ∧ is_regular results g = false ∧
        regularityCheck cfg results fs = Except.error (RMError.irregular g) := by
  intro fs
  induction fs with
  | nil =>
    rintro ⟨f, hf, _⟩
    cases hf
  | cons f0 fs ih =>
    rintro ⟨f, hf, h1, h2⟩
    by_cases hc : (regularityApplies cfg f0 && !is_regular results f0) = true
    · obtain ⟨hc1, hc2⟩ := Bool.and_eq_true_iff.mp hc
      refine ⟨f0, hc1, ?_, ?_⟩
      · simpa using hc2
      · rw [regularityCheck, if_pos hc]
    · have hff : f ∈ fs := by
        rcases List.mem_cons.mp hf with rfl | hm
        · exact absurd (by rw [h1, h2]; rfl) hc
        · exact hm
      obtain ⟨g, hg1, hg2, hg3⟩ := ih ⟨f, hff, h1, h2⟩
      exact ⟨g, hg1, hg2, by rw [regularityCheck, if_neg hc]; exact hg3⟩

theorem regularityCheck_ok_of_forall (cfg : RMConfig)
    (results : List ResultMap) :
    ∀ fs : List String,
      (∀ f ∈ fs, regularityApplies cfg f = true →
        is_regular results f = true) →
      regularityCheck cfg results fs = Except.ok () := by
  intro fs
  induction fs with
  | nil => intro _; rfl
  | cons f0 fs ih =>
    intro h
    have hc : ¬(regularityApplies cfg f0 && !is_regular results f0) = true := by
      intro hc
      obtain ⟨hc1, hc2⟩ := Bool.and_eq_true_iff.mp hc
      rw [h f0 (List.mem_cons_self _ _) hc1] at hc2
      cases hc2
    rw [regularityCheck, if_neg hc]
    exact ih (fun f hf => h f (List.mem_cons_of_mem _ hf))

/-- C5: for every feature subject to the regularity check (not declared
adaptive; for the model's own output, only when the model is neither
adaptive nor set to ignore), if `is_regular` fails for some such feature,
`results_to_data` aborts with an error naming an offending feature, whose
message also suggests setting adaptive to true; if the check passes for
all such features, no irregularity error is raised. -/
theorem results_to_data_irregularity (cfg : RMConfig) (r0 : ResultMap)
    (rest : List ResultMap) :
    ((∃ f ∈ r0.map Prod.fst, regularityApplies cfg f = true ∧
        is_regular (r0 :: rest) f = false) →
      ∃ g, regularityApplies cfg g = true ∧
        is_regular (r0 :: rest) g = false ∧
        results_to_data cfg (r0 :: rest) =
          Except.error (RMError.irregular g) ∧
        (RMError.irregular g).message =
          g ++ ": The number of points varies between evaluations." ++
            " Try setting adaptive to True in " ++ g) ∧
    ((∀ f ∈ r0.map Prod.fst, regularityApplies cfg f = true →
        is_regular (r0 :: rest) f = true) →
      ∀ g, results_to_data cfg (r0 :: rest) ≠
        Except.error (RMError.irregular g)) := by
  constructor
  · intro hex
    obtain ⟨g, hg1, hg2, hg3⟩ :=
      regularityCheck_error_of_exists cfg (r0 :: rest) _ hex
    refine ⟨g, hg1, hg2, ?_, rfl⟩
    simp only [results_to_data]
    rw [hg3]
  · intro hall g h
    have hok := regularityCheck_ok_of_forall cfg (r0 :: rest)
      (r0.map Prod.fst) hall
    simp only [results_to_data] at h
    rw [hok] at h
    cases hsa : storeAll cfg (r0 :: rest) (r0.map Prod.fst) with
    | error e =>
      rw [hsa] at h
      simp at h
      exact storeAll_not_irregular cfg (r0 :: rest) _ g (h ▸ hsa)
    | ok p =>
      obtain ⟨entries, ws⟩ := p
      rw [hsa] at h
      simp at h

/-- C5 witness: the model produces outputs of lengths 2 and 1 and is
neither adaptive nor ignored; `results_to_data` raises the irregularity
error naming the model. -/
theorem results_to_data_irregularity_witness :
    ∃ g, regularityApplies ⟨"m", false, false, [], [], []⟩ g = true ∧
      is_regular [[("m", ⟨PyVal.v1 [1, 2], TimeVal.nanScalar, none⟩)],
        [("m", ⟨PyVal.v1 [1], TimeVal.nanScalar, none⟩)]] g = false ∧
      results_to_data ⟨"m", false, false, [], [], []⟩
        [[("m", ⟨PyVal.v1 [1, 2], TimeVal.nanScalar, none⟩)],
          [("m", ⟨PyVal.v1 [1], TimeVal.nanScalar, none⟩)]] =
        Except.error (RMError.irregular g) ∧
      (RMError.irregular g).message =
        g ++ ": The number of points varies between evaluations." ++
          " Try setting adaptive to True in " ++ g := by
  exact (results_to_data_irregularity ⟨"m", false, false, [], [], []⟩
    [("m", ⟨PyVal.v1 [1, 2], TimeVal.nanScalar, none⟩)]
    [[("m", ⟨PyVal.v1 [1], TimeVal.nanScalar, none⟩)]]).1
    ⟨"m", by decide, by decide, by decide⟩

/-- C7 (counterexample): the claim — any results list containing 2-D
values for an adaptive feature raises the not-implemented error — is
false: the dimensionality dispatch reads only the FIRST evaluation's
values, so a results list whose SECOND evaluation carries 2-D values for
the adaptive feature raises nothing; aggregation succeeds and stores a
resampled row for the 2-D evaluation. -/
theorem results_to_data_twoD_no_error :
    results_to_data ⟨"m", false, false, ["f"], [], []⟩
      [[("f", ⟨PyVal.v1 [1, 2], TimeVal.tArr [some 0, some 1],
          some (fun e => e)⟩)],
        [("f", ⟨PyVal.v2 [[3], [4]], TimeVal.tArr [some 0],
          some (fun e => e)⟩)]] =
      Except.ok (⟨"m", [("f", ⟨[], TimeData.one (TimeVal.tArr [some 0, some 1]),
        EvalData.interpolated [[some 0, some 1], [some 0, some 1]]⟩)]⟩, []) :=
  rfl

/-- C7 (amended): when the FIRST evaluation's values of an adaptive
feature are 2-D (or higher-dimensional), `results_to_data` raises the
not-implemented error naming the feature and never stores the feature or
returns a dataset: the storage step fails and, whenever the feature is
among the result keys, the aggregation cannot succeed. -/
theorem results_to_data_twoD_first (cfg : RMConfig) (r0 : ResultMap)
    (rest : List ResultMap) (f : String)
    (hada : adaptiveApplies cfg f = true)
    (hdim : 2 ≤ (getEnv r0 f).values.ndim) :
    storeFeature cfg (r0 :: rest) f =
      Except.error (RMError.notImplemented f) ∧
    (f ∈ r0.map Prod.fst →
      ∀ dw, results_to_data cfg (r0 :: rest) ≠ Except.ok dw) := by
  have hsf : storeFeature cfg (r0 :: rest) f =
      Except.error (RMError.notImplemented f) := by
    simp only [storeFeature, List.headD_cons]
    rw [if_pos hada, if_pos hdim]
  refine ⟨hsf, ?_⟩
  intro hmem dw hok
  simp only [results_to_data] at hok
  cases hrc : regularityCheck cfg (r0 :: rest) (r0.map Prod.fst) with
  | error e =>
    rw [hrc] at hok
    simp at hok
  | ok u =>
    cases u
    rw [hrc] at hok
    cases hsa : storeAll cfg (r0 :: rest) (r0.map Prod.fst) with
    | error e =>
      rw [hsa] at hok
      simp at hok
    | ok p =>
      obtain ⟨entries, ws⟩ := p
      obtain ⟨fd, w, hsf2, _, _⟩ :=
        storeAll_ok_lookup cfg (r0 :: rest) _ entries ws hsa f hmem
      rw [hsf] at hsf2
      cases hsf2

/-- C7 witness (amended claim at a concrete input): first evaluation 2-D
for the adaptive feature — the storage step raises the not-implemented
error and the aggregation cannot return a dataset. -/
theorem results_to_data_twoD_first_witness :
    storeFeature ⟨"m", false, false, ["f"], [], []⟩
      [[("f", ⟨PyVal.v2 [[1], [2]], TimeVal.tArr [some 0],
          some (fun e => e)⟩)]] "f" =
      Except.error (RMError.notImplemented "f") ∧
    ("f" ∈ ([("f", (⟨PyVal.v2 [[1], [2]], TimeVal.tArr [some 0],
        some (fun e => e)⟩ : Envelope))] : ResultMap).map Prod.fst →
      ∀ dw, results_to_data ⟨"m", false, false, ["f"], [], []⟩
        [[("f", ⟨PyVal.v2 [[1], [2]], TimeVal.tArr [some 0],
          some (fun e => e)⟩)]] ≠ Except.ok dw) := by
  exact results_to_data_twoD_first ⟨"m", false, false, ["f"], [], []⟩
    [("f", ⟨PyVal.v2 [[1], [2]], TimeVal.tArr [some 0], some (fun e => e)⟩)]
    [] "f" (by decide) (by decide)

/-- C9: for an adaptive feature whose (first evaluation's) values are 0-D
scalars, `results_to_data` performs no interpolation: whenever the
aggregation succeeds, the stored record for the feature carries the first
evaluation's time and the raw per-evaluation values in evaluation order,
and the 0-D warning naming the feature is among the emitted warnings. -/
theorem results_to_data_zeroD (cfg : RMConfig) (r0 : ResultMap)
    (rest : List ResultMap) (f : String) (d : DataObj) (warns : List String)
    (hmem : f ∈ r0.map Prod.fst)
    (hada : adaptiveApplies cfg f = true)
    (hdim : (getEnv r0 f).values.ndim = 0)
    (hok : results_to_data cfg (r0 :: rest) = Except.ok (d, warns)) :
    d.entries.lookup f = some ⟨labelsFor cfg f,
      TimeData.one (getEnv r0 f).time,
      EvalData.raw ((r0 :: rest).map (fun r => (getEnv r f).values))⟩ ∧
    zeroDWarning f ∈ warns := by
  have hsf : storeFeature cfg (r0 :: rest) f = Except.ok
      (⟨labelsFor cfg f, TimeData.one (getEnv r0 f).time,
        EvalData.raw ((r0 :: rest).map (fun r => (getEnv r f).values))⟩,
       [zeroDWarning f]) := by
    simp only [storeFeature, List.headD_cons]
    rw [if_pos hada, if_neg (by rw [hdim]; omega), if_neg (by rw [hdim]; simp)]
  simp only [results_to_data] at hok
  cases hrc : regularityCheck cfg (r0 :: rest) (r0.map Prod.fst) with
  | error e =>
    rw [hrc] at hok
    simp at hok
  | ok u =>
    cases u
    rw [hrc] at hok
    cases hsa : storeAll cfg (r0 :: rest) (r0.map Prod.fst) with
    | error e =>
      rw [hsa] at hok
      simp at hok
    | ok p =>
      obtain ⟨entries, ws⟩ := p
      rw [hsa] at hok
      simp only [Except.ok.injEq, Prod.mk.injEq] at hok
      obtain ⟨hd, hw⟩ := hok
      obtain ⟨fd, w, hsf2, hlk, hws⟩ :=
        storeAll_ok_lookup cfg (r0 :: rest) _ entries ws hsa f hmem
      rw [hsf] at hsf2
      injection hsf2 with hfd
      obtain ⟨hfd1, hfd2⟩ := Prod.mk.injEq .. ▸ hfd
      constructor
      · rw [← hd]
        simp only [DataObj.entries]  -- d.entries where d = ⟨model_name, entries⟩... careful direction
        rw [← hfd1] at hlk
        exact hlk
      · rw [← hw]
        apply hws
        rw [← hfd2]
        exact List.mem_cons_self _ _

/-- C9 witness: two evaluations of an adaptive 0-D feature are stored raw,
with the first evaluation's time and the 0-D warning. -/
theorem results_to_data_zeroD_witness :
    (⟨"m", [("g", ⟨[], TimeData.one TimeVal.nanScalar,
        EvalData.raw [PyVal.v0 3, PyVal.v0 7]⟩)]⟩ : DataObj).entries.lookup "g" =
      some ⟨labelsFor ⟨"m", false, false, ["g"], [], []⟩ "g",
        TimeData.one (getEnv [("g", ⟨PyVal.v0 3, TimeVal.nanScalar, none⟩)]
          "g").time,
        EvalData.raw ([[("g", ⟨PyVal.v0 3, TimeVal.nanScalar, none⟩)],
          [("g", ⟨PyVal.v0 7, TimeVal.nanScalar, none⟩)]].map
            (fun r => (getEnv r "g").values))⟩ ∧
    zeroDWarning "g" ∈ [zeroDWarning "g"] := by
  exact results_to_data_zeroD ⟨"m", false, false, ["g"], [], []⟩
    [("g", ⟨PyVal.v0 3, TimeVal.nanScalar, none⟩)]
    [[("g", ⟨PyVal.v0 7, TimeVal.nanScalar, none⟩)]] "g"
    ⟨"m", [("g", ⟨[], TimeData.one TimeVal.nanScalar,
      EvalData.raw [PyVal.v0 3, PyVal.v0 7]⟩)]⟩ [zeroDWarning "g"]
    (by decide) (by decide) (by decide) (by rfl)
